import Mathlib

/-!
# Verification of the NASDAQ ITCH 5.0 trade parser and VWAP aggregator

Shallow embedding of `ITCH_parser.py` (class `ITCH_trade`).  Byte streams are
`List ℕ` (each entry a byte value), pandas float columns are modelled as exact
rationals `ℚ`, and the non-finite values produced by a float division by zero
(`inf`/`NaN`) are modelled by `Option ℚ` with `none` standing for the
non-finite case.  Python exceptions (`AssertionError` from the tag check,
`struct.error` from a short unpack, `UnicodeDecodeError`, `ValueError` from
`int(...)`) are modelled by `Except ParseError`.
-/

namespace ITCH

/-! ## Byte-level decoding -/

/-- Big-endian unsigned-integer value of a byte list, as produced by
`struct.unpack('>...', ...)` on a fixed-width unsigned field. -/
def beDecode (bs : List ℕ) : ℕ := bs.foldl (fun a b => 256 * a + b) 0

/-- The 64-bit timestamp computed by `trade_message` / `cross_trade_message`:
the source packs `b'\x00\x00'` in front of the 6 timestamp bytes (offsets
4..9 of the tag-less message) and then unpacks the resulting 8 bytes as a
big-endian `Q` field. -/
def ts_padded (msg : List ℕ) : ℕ := beDecode (0 :: 0 :: (msg.drop 4).take 6)

/-- Spec-side definition for refinement claim C9, following the spec's words:
a direct big-endian unsigned-integer decode of exactly the 6 timestamp bytes,
with no intermediate padding step. -/
def ts_direct (msg : List ℕ) : ℕ := beDecode ((msg.drop 4).take 6)

/-! ## Rounding -/

/-- Round-half-even (banker's) division `a / b` on naturals; this is the
microsecond rounding `datetime.timedelta` applies to fractional seconds. -/
def rheDiv (a b : ℕ) : ℕ :=
  let q := a / b
  let r := a % b
  if 2 * r < b then q else if b < 2 * r then q + 1 else if q % 2 = 0 then q else q + 1

/-- Round-half-even of a rational to the nearest integer; this is Python's
`round` on the (here exactly modelled) float value. -/
def rheQ (q : ℚ) : ℤ :=
  let n := ⌊q⌋
  if q - n < 1 / 2 then n
  else if (1 : ℚ) / 2 < q - n then n + 1
  else if n % 2 = 0 then n else n + 1

/-- Python `round(x, 3)`. -/
def round3 (q : ℚ) : ℚ := ((rheQ (q * 1000) : ℚ)) / 1000

/-! ## Decimal printing and parsing of the time string

`trade_message` renders the timestamp via
`'{0}'.format(timedelta(seconds = ns / 1e9)).split('.')[0]` and then parses
the hour back out of the string with `int(time_str.split(':')[0])`.
`timedelta.__str__` prints `"%d:%02d:%02d"` (hours NOT zero padded), with a
`"%d day(s), "` prefix once the value reaches 24 hours. -/

/-- Decimal digit characters of `n`, accumulator form (fuel is `n + 1`, always
sufficient since a number needs at most `n + 1` digits). -/
def natDigitsAux : ℕ → ℕ → List Char → List Char
  | 0, _, acc => acc
  | fuel + 1, n, acc =>
    if n < 10 then Char.ofNat (48 + n) :: acc
    else natDigitsAux fuel (n / 10) (Char.ofNat (48 + n % 10) :: acc)

/-- Decimal representation of a natural, as Python's `"%d" % n`. -/
def natRepr (n : ℕ) : List Char := natDigitsAux (n + 1) n []

/-- Python's `"%02d" % n`. -/
def pad2 (n : ℕ) : List Char := if n < 10 then '0' :: natRepr n else natRepr n

/-- Value of a list of decimal digit characters. -/
def digitsToNat (cs : List Char) : ℕ := cs.foldl (fun a c => 10 * a + (c.toNat - 48)) 0

/-- Python `int(s)` restricted to the strings that occur here: succeeds
exactly on a non-empty all-digit string (e.g. `"4"`), and raises `ValueError`
(modelled `none`) on anything else (e.g. `"1 day, 0"`). -/
def intParseNat (cs : List Char) : Option ℕ :=
  if cs.isEmpty then none
  else if cs.all Char.isDigit then some (digitsToNat cs) else none

/-- The characters of `str(timedelta)` after `.split('.')[0]`, given the total
microseconds of the (non-negative) duration: `H:MM:SS` with unpadded hours,
prefixed by `"D day(s), "` when the duration reaches one day.  The fractional
`.ffffff` part is exactly what `.split('.')[0]` discards, so it is never
produced here. -/
def timeStrChars (us : ℕ) : List Char :=
  let totalSecs := us / 1000000
  let days := totalSecs / 86400
  let secs := totalSecs % 86400
  let hh := secs / 3600
  let mm := secs % 3600 / 60
  let ss := secs % 60
  let base := natRepr hh ++ ':' :: (pad2 mm ++ ':' :: pad2 ss)
  if days = 0 then base
  else natRepr days ++ (if days = 1 then " day, ".data else " days, ".data) ++ base

/-- Total microseconds stored by `timedelta(seconds = ns / 1e9)`: the float
seconds value is modelled exactly, and `timedelta` rounds it half-even at
microsecond resolution, i.e. `ns / 1000` rounded half to even. -/
def usOf (ns : ℕ) : ℕ := rheDiv ns 1000

/-- `time_str.split(':')[0]`, i.e. the characters before the first colon. -/
def hourField (cs : List Char) : List Char := cs.takeWhile (fun c => c != ':')

/-- The `time` column of a decoded record: the formatted wall-clock string of
the 48-bit nanosecond timestamp (whole seconds only). -/
def time_str_of_ns (ns : ℕ) : String := String.mk (timeStrChars (usOf ns))

/-- The `end_time_hour` column (`int(time_str.split(':')[0]) + 1`): `none`
models the `ValueError` that `int` raises when the formatted duration carries
a `"day"` prefix (timestamp of 24 hours or more). -/
def end_time_hour_of_ns (ns : ℕ) : Option ℕ :=
  (intParseNat (hourField (timeStrChars (usOf ns)))).map (fun h => h + 1)

/-! ## Character decoding and stripping -/

/-- Python `str.strip()` whitespace test, restricted to the ASCII range that
can occur after a successful `.decode('ascii')`. -/
def pySpace (c : Char) : Bool :=
  c == ' ' || c == '\t' || c == '\n' || c == '\r' ||
    decide (c.toNat = 11) || decide (c.toNat = 12) ||
    decide (28 ≤ c.toNat && c.toNat ≤ 31)

/-- Python `str.strip()`: drop whitespace from both ends. -/
def pyStrip (cs : List Char) : List Char :=
  ((cs.dropWhile pySpace).reverse.dropWhile pySpace).reverse

/-! ## Records and errors -/

/-- One decoded trade record: the list
`[time, end_time_hour, type, shares, stock, price]` built by
`trade_message` / `cross_trade_message` (also one row of `trade_df` /
`cross_trade_df`, whose columns carry these names). -/
structure TradeRow where
  time : String
  end_time_hour : ℕ
  type : String
  shares : ℕ
  stock : String
  price : ℚ
deriving DecidableEq

/-- The unrecoverable failure modes of the decode phase:
`invalidMessageType` is the failed tag `assert`, `truncatedMessage` the
`struct.error` of an unpack on too few bytes, `decodeError` a failed
`.decode('ascii')`, and `valueError` the failed `int(...)` on a timestamp of
a day or more. -/
inductive ParseError
  | invalidMessageType
  | truncatedMessage
  | decodeError
  | valueError
deriving DecidableEq

/-! ## The two decoders -/

/-- `trade_message` (message type `P`): payload layout (43 bytes, tag not
included) is stock-locate+tracking 0..3, timestamp 4..9, order reference
10..17, buy/sell indicator 18, shares 19..22, symbol 23..30, price 31..34,
match number 35..42.  `struct.unpack` demands exactly 43 bytes
(`truncatedMessage` otherwise); the time string and hour are computed before
the ASCII decodes, and the indicator is decoded before the symbol, matching
the evaluation order of the source. -/
def trade_message (msg : List ℕ) : Except ParseError TradeRow :=
  if msg.length ≠ 43 then .error .truncatedMessage
  else
    let ts := ts_padded msg
    match end_time_hour_of_ns ts with
    | none => .error .valueError
    | some eth =>
      let sideB := msg.getD 18 0
      let symB := (msg.drop 23).take 8
      if 128 ≤ sideB then .error .decodeError
      else if symB.any (fun b => decide (128 ≤ b)) then .error .decodeError
      else .ok {
        time := time_str_of_ns ts
        end_time_hour := eth
        type := String.mk [Char.ofNat sideB]
        shares := beDecode ((msg.drop 19).take 4)
        stock := String.mk (pyStrip (symB.map Char.ofNat))
        price := round3 ((beDecode ((msg.drop 31).take 4) : ℚ) / 10000) }

/-- `cross_trade_message` (message type `Q`): payload layout (39 bytes) is
stock-locate+tracking 0..3, timestamp 4..9, shares (8 bytes) 10..17, symbol
18..25, price 26..29, match number 30..37, cross type 38.  The cross-type
character is decoded before the symbol, matching the source. -/
def cross_trade_message (msg : List ℕ) : Except ParseError TradeRow :=
  if msg.length ≠ 39 then .error .truncatedMessage
  else
    let ts := ts_padded msg
    match end_time_hour_of_ns ts with
    | none => .error .valueError
    | some eth =>
      let typeB := msg.getD 38 0
      let symB := (msg.drop 18).take 8
      if 128 ≤ typeB then .error .decodeError
      else if symB.any (fun b => decide (128 ≤ b)) then .error .decodeError
      else .ok {
        time := time_str_of_ns ts
        end_time_hour := eth
        type := String.mk [Char.ofNat typeB]
        shares := beDecode ((msg.drop 10).take 8)
        stock := String.mk (pyStrip (symB.map Char.ofNat))
        price := round3 ((beDecode ((msg.drop 26).take 4) : ℚ) / 10000) }

/-! ## The dispatcher (`get_trade_data`) -/

/-- The 21 known tag bytes, in the order of the source's `assert` list:
`S R H Y L V W K J h A F E C X D U P Q B I`. -/
def validTags : List ℕ :=
  [83, 82, 72, 89, 76, 86, 87, 75, 74, 104, 65, 70, 69, 67, 88, 68, 85, 80, 81, 66, 73]

/-- Payload bytes consumed (`bin_data.read(n)`) for each non-trade tag,
exactly the per-tag reads of the source's dispatch chain. -/
def skipLen (tag : ℕ) : ℕ :=
  if tag = 83 then 13 else if tag = 82 then 40 else if tag = 72 then 26
  else if tag = 89 then 21 else if tag = 76 then 27 else if tag = 86 then 36
  else if tag = 87 then 13 else if tag = 75 then 29 else if tag = 74 then 36
  else if tag = 104 then 22 else if tag = 65 then 37 else if tag = 70 then 41
  else if tag = 69 then 32 else if tag = 67 then 37 else if tag = 88 then 24
  else if tag = 68 then 20 else if tag = 85 then 36 else if tag = 66 then 20
  else if tag = 73 then 51 else 0

/-- The message loop of `get_trade_data`, fuelled for structural recursion
(the fuel is the remaining stream length, which strictly decreases since
every iteration consumes the tag byte).  Semantics of a Python file read:
`read(n)` returns `min n available` bytes without error, so a short skip or
padding read is silently absorbed (`List.drop`); only the `struct.unpack`
inside a decoder rejects a short `P`/`Q` payload.  An empty tag read ends
the loop normally. -/
def loopFuel : ℕ → List ℕ → Except ParseError (List TradeRow × List TradeRow)
  | _, [] => .ok ([], [])
  | 0, _ :: _ => .ok ([], [])
  | fuel + 1, tag :: rest =>
    if tag ∈ validTags then
      if tag = 80 then
        match trade_message (rest.take 43) with
        | .error e => .error e
        | .ok r =>
          match loopFuel fuel ((rest.drop 43).drop 2) with
          | .error e => .error e
          | .ok (t, c) => .ok (r :: t, c)
      else if tag = 81 then
        match cross_trade_message (rest.take 39) with
        | .error e => .error e
        | .ok r =>
          match loopFuel fuel ((rest.drop 39).drop 2) with
          | .error e => .error e
          | .ok (t, c) => .ok (t, r :: c)
      else loopFuel fuel (rest.drop (skipLen tag))
    else .error .invalidMessageType

/-- The full decode phase on a byte stream: skip the 2 leading control bytes,
then run the message loop. -/
def dispatch (stream : List ℕ) : Except ParseError (List TradeRow × List TradeRow) :=
  loopFuel (stream.drop 2).length (stream.drop 2)

/-- The message loop started on a stream suffix with exactly enough fuel. -/
def runTail (s : List ℕ) : Except ParseError (List TradeRow × List TradeRow) :=
  loopFuel s.length s

/-- The object state `self.trade_df` / `self.cross_trade_df` (both `None`
until `get_trade_data` completes successfully). -/
structure ParserState where
  trade_df : Option (List TradeRow)
  cross_trade_df : Option (List TradeRow)
deriving DecidableEq

/-- `get_trade_data`: on success the two decoded lists are stored on the
object and returned; a raised exception propagates before the assignments at
the end of the method, so the stored state is unchanged on every error. -/
def get_trade_data (st : ParserState) (stream : List ℕ) :
    ParserState × Except ParseError (List TradeRow × List TradeRow) :=
  match dispatch stream with
  | .error e => (st, .error e)
  | .ok (t, c) => (⟨some t, some c⟩, .ok (t, c))

/-- The gzip stream handle. -/
structure Handle where
  closed : Bool
deriving DecidableEq

/-- `get_trade_data` with the stream handle made explicit: `gzip.open`
creates the handle in the open state, and the method body contains no
`close()` call and no `with` block, so the handle is still open at every
exit, the normal return as well as every exception path. -/
def get_trade_data_io (st : ParserState) (stream : List ℕ) :
    Handle × ParserState × Except ParseError (List TradeRow × List TradeRow) :=
  let h : Handle := { closed := false }
  match dispatch stream with
  | .error e => (h, st, .error e)
  | .ok (t, c) => (h, ⟨some t, some c⟩, .ok (t, c))

/-- One successful iteration of the message loop, relating the stream before
a tag byte to the stream at the next message boundary. -/
inductive Step : List ℕ → List ℕ → Prop where
  | skip (tag : ℕ) (rest : List ℕ) (hv : tag ∈ validTags) (hp : tag ≠ 80)
      (hq : tag ≠ 81) : Step (tag :: rest) (rest.drop (skipLen tag))
  | ptrade (rest : List ℕ) (r : TradeRow)
      (h : trade_message (rest.take 43) = .ok r) :
      Step (80 :: rest) ((rest.drop 43).drop 2)
  | qtrade (rest : List ℕ) (r : TradeRow)
      (h : cross_trade_message (rest.take 39) = .ok r) :
      Step (81 :: rest) ((rest.drop 39).drop 2)

/-- A stream suffix is at a reachable message boundary of the loop. -/
def Reaches : List ℕ → List ℕ → Prop := Relation.ReflTransGen Step

/-! ## The VWAP aggregator (`calculate_VWAP` / `get_VWAP_df`) -/

/-- A pandas group key `(end_time_hour, stock)`. -/
abbrev Key := ℕ × String

/-- Key of a trade record. -/
def rowKey (r : TradeRow) : Key := (r.end_time_hour, r.stock)

/-- The lexicographic order `(end_time_hour ascending, stock ascending)` used
by `groupby` (which sorts its keys) and by `sort_values`; Python string
comparison is code-point lexicographic, as is Lean's. -/
def keyLE (a b : Key) : Prop := a.1 < b.1 ∨ (a.1 = b.1 ∧ a.2 ≤ b.2)

/-- Strict version of `keyLE`. -/
def keyLT (a b : Key) : Prop := a.1 < b.1 ∨ (a.1 = b.1 ∧ a.2 < b.2)

instance : DecidableRel keyLE := fun a b =>
  inferInstanceAs (Decidable (a.1 < b.1 ∨ (a.1 = b.1 ∧ a.2 ≤ b.2)))

instance : DecidableRel keyLT := fun a b =>
  inferInstanceAs (Decidable (a.1 < b.1 ∨ (a.1 = b.1 ∧ a.2 < b.2)))

instance : IsTotal Key keyLE where
  total a b := by
    rcases Nat.lt_trichotomy a.1 b.1 with h | h | h
    · exact Or.inl (Or.inl h)
    · rcases le_total a.2 b.2 with h2 | h2
      · exact Or.inl (Or.inr ⟨h, h2⟩)
      · exact Or.inr (Or.inr ⟨h.symm, h2⟩)
    · exact Or.inr (Or.inl h)

instance : IsTrans Key keyLE where
  trans a b c hab hbc := by
    rcases hab with h1 | ⟨h1, h1s⟩ <;> rcases hbc with h2 | ⟨h2, h2s⟩
    · exact Or.inl (h1.trans h2)
    · exact Or.inl (h2 ▸ h1)
    · exact Or.inl (h1 ▸ h2)
    · exact Or.inr ⟨h1.trans h2, h1s.trans h2s⟩

/-- One row of the result of `calculate_VWAP`, with the source's column
names: `total_value`, `shares`, `vwap`, `cum_total_value`, `cum_shares`,
`cum_vwap` (the spec calls these `value_in_bucket`, `shares_in_bucket`,
`vwap_in_bucket`, `cumulative_value`, `cumulative_shares`,
`cumulative_vwap`).  The two vwap columns are `Option ℚ`: `none` models the
non-finite float (`inf`/`NaN`) that a pandas division by zero produces. -/
structure VWAPRow where
  end_time_hour : ℕ
  stock : String
  total_value : ℚ
  shares : ℕ
  vwap : Option ℚ
  cum_total_value : ℚ
  cum_shares : ℕ
  cum_vwap : Option ℚ
deriving DecidableEq, Inhabited

/-- Key of a result row. -/
def vwapKey (r : VWAPRow) : Key := (r.end_time_hour, r.stock)

/-- A pandas float column division: finite quotient when the denominator is
non-zero, a silently propagated non-finite value (`none`) otherwise — numpy
raises no exception on division by zero. -/
def pandasDiv (a : ℚ) (b : ℕ) : Option ℚ := if b = 0 then none else some (a / b)

/-- `total_value` of one trade: `price * shares`. -/
def tradeValue (r : TradeRow) : ℚ := r.price * (r.shares : ℚ)

/-- Sum of `shares` over the `(end_time_hour, stock)` group of `k`. -/
def sumSharesFor (l : List TradeRow) (k : Key) : ℕ :=
  ((l.filter fun r => decide (rowKey r = k)).map TradeRow.shares).sum

/-- Sum of `total_value` over the `(end_time_hour, stock)` group of `k`. -/
def sumValueFor (l : List TradeRow) (k : Key) : ℚ :=
  ((l.filter fun r => decide (rowKey r = k)).map tradeValue).sum

/-- The distinct group keys in ascending `(end_time_hour, stock)` order, as
produced by `groupby([...]).sum()` followed by `reset_index` and the
(redundant) `sort_values`. -/
def sortedKeys (l : List TradeRow) : List Key :=
  List.insertionSort keyLE ((l.map rowKey).dedup)

/-- The grouped row for key `k`: summed `total_value` and `shares`, and
`vwap = round(total_value / shares, 3)`; the cumulative columns are added by
the later pass. -/
def bucketRow (l : List TradeRow) (k : Key) : VWAPRow :=
  { end_time_hour := k.1
    stock := k.2
    total_value := sumValueFor l k
    shares := sumSharesFor l k
    vwap := (pandasDiv (sumValueFor l k) (sumSharesFor l k)).map round3
    cum_total_value := 0
    cum_shares := 0
    cum_vwap := none }

/-- The grouped, sorted table before the cumulative columns. -/
def bucketPass (l : List TradeRow) : List VWAPRow :=
  (sortedKeys l).map (bucketRow l)

/-- Fill the cumulative columns of one row from the rows up to and including
it (`pre`), restricted to the row's own stock: this is
`groupby('stock')[...].cumsum()` at one row position, plus
`cum_vwap = round(cum_total_value / cum_shares, 3)`. -/
def setCums (r : VWAPRow) (pre : List VWAPRow) : VWAPRow :=
  let same := pre.filter fun x => decide (x.stock = r.stock)
  let cs := (same.map VWAPRow.shares).sum
  let cv := (same.map VWAPRow.total_value).sum
  { r with cum_total_value := cv, cum_shares := cs,
           cum_vwap := (pandasDiv cv cs).map round3 }

/-- The cumulative pass over the sorted table, in row order, carrying the
rows already seen. -/
def cumPass (seen : List VWAPRow) : List VWAPRow → List VWAPRow
  | [] => []
  | r :: rest => setCums r (seen ++ [r]) :: cumPass (seen ++ [r]) rest

/-- `calculate_VWAP`: group by `(end_time_hour, stock)` with summed
`total_value` and `shares`, add `vwap`, sort ascending by the key, then add
the per-stock running sums and `cum_vwap`. -/
def calculate_VWAP (l : List TradeRow) : List VWAPRow :=
  cumPass [] (bucketPass l)

/-- `get_VWAP_df` on already-decoded collections: with
`include_cross_trade = true` the two collections are concatenated
(non-cross first, as `pd.concat`) before aggregation; otherwise only the
non-cross trades are aggregated. -/
def get_VWAP_df (trades cross : List TradeRow) (include_cross_trade : Bool) :
    List VWAPRow :=
  calculate_VWAP (if include_cross_trade then trades ++ cross else trades)

/-! ## DataFrame identity model for the frame claim -/

/-- A stored DataFrame: its rows plus the names of any columns added beyond
the decoded schema (`time, end_time_hour, type, shares, stock, price`). -/
structure DF where
  rows : List TradeRow
  extra_cols : List String
deriving DecidableEq

/-- `DataFrame.copy()`: a fresh value with the same contents. -/
def DF.copy (df : DF) : DF := ⟨df.rows, df.extra_cols⟩

/-- `pd.concat([a, b], ignore_index=True)`: rows of `a` then rows of `b`,
columns the union of both. -/
def concatDF (a b : DF) : DF := ⟨a.rows ++ b.rows, a.extra_cols ∪ b.extra_cols⟩

/-- `calculate_VWAP` with its in-place effect on the argument made explicit:
the first statement `trade_df['total_value'] = ...` adds a column to the
caller's DataFrame, so the function returns the mutated argument alongside
the aggregated result. -/
def calculate_VWAP_mut (df : DF) : DF × List VWAPRow :=
  (⟨df.rows, df.extra_cols ++ ["total_value"]⟩, calculate_VWAP df.rows)

/-- The cached state read by `get_VWAP_df` (both frames already decoded). -/
structure VWAPState where
  trade_df : DF
  cross_trade_df : DF
deriving DecidableEq

/-- `get_VWAP_df` over the explicit state: the method passes
`self.trade_df.copy()` (or a fresh concat of copies) to `calculate_VWAP`, so
the in-place column addition lands on the temporary; the stored frames are
returned unchanged. -/
def get_VWAP_df_st (st : VWAPState) (include_cross_trade : Bool) :
    VWAPState × List VWAPRow :=
  let total_trade_df :=
    if include_cross_trade then concatDF st.trade_df.copy st.cross_trade_df.copy
    else st.trade_df.copy
  let res := calculate_VWAP_mut total_trade_df
  (st, res.2)

/-- Concrete two-trade input (same stock, consecutive hour buckets) used by
the witnesses: shares 100 and 200, prices 100 and 50. -/
def exIn : List TradeRow :=
  [⟨"9:15:00", 10, "B", 100, "AAPL", 100⟩, ⟨"10:05:00", 11, "B", 200, "AAPL", 50⟩]

/-- Concrete input whose single group has zero total shares. -/
def zeroShareIn : List TradeRow := [⟨"0:00:00", 1, "B", 0, "A", 5⟩]

/-- Concrete cross-trade record in the same bucket as the first `exIn`
trade. -/
def exCross : List TradeRow := [⟨"9:20:00", 10, "O", 50, "AAPL", 10⟩]

end ITCH

deriving instance DecidableEq for Except

namespace ITCH

/-! ## Helper lemmas: decimal time string -/

theorem takeWhile_append_cons (p : Char → Bool) (l₁ : List Char) (c : Char)
    (l₂ : List Char) (h₁ : l₁.all p = true) (hc : p c = false) :
    (l₁ ++ c :: l₂).takeWhile p = l₁ := by
  induction l₁ with
  | nil => simp [List.takeWhile_cons, hc]
  | cons a t ih =>
    simp only [List.all_cons, Bool.and_eq_true] at h₁
    simp [List.takeWhile_cons, h₁.1, ih h₁.2]

theorem intParseNat_natRepr_lt24 : ∀ h : ℕ, h < 24 → intParseNat (natRepr h) = some h := by
  decide

theorem natRepr_ne_colon_lt24 :
    ∀ h : ℕ, h < 24 → (natRepr h).all (fun c => c != ':') = true := by
  decide

theorem timeStrChars_inday (us : ℕ) (h : us < 86400000000) :
    timeStrChars us =
      natRepr (us / 1000000 / 3600) ++ ':' ::
        (pad2 (us / 1000000 % 3600 / 60) ++ ':' :: pad2 (us / 1000000 % 60)) := by
  have hts : us / 1000000 < 86400 := by omega
  simp [timeStrChars, Nat.div_eq_of_lt hts, Nat.mod_eq_of_lt hts]

theorem end_time_hour_inday (ns : ℕ) (h : usOf ns < 86400000000) :
    end_time_hour_of_ns ns = some (usOf ns / 1000000 / 3600 + 1) := by
  have hh : usOf ns / 1000000 / 3600 < 24 := by omega
  unfold end_time_hour_of_ns hourField
  rw [timeStrChars_inday _ h,
    takeWhile_append_cons _ _ _ _ (natRepr_ne_colon_lt24 _ hh) (by decide),
    intParseNat_natRepr_lt24 _ hh]
  rfl

/-! ## Helper lemmas: rounding -/

theorem rheQ_intCast (m : ℤ) : rheQ (m : ℚ) = m := by
  unfold rheQ
  norm_num [Int.floor_intCast]

theorem round3_round3 (q : ℚ) : round3 (round3 q) = round3 q := by
  unfold round3
  rw [div_mul_cancel₀ _ (by norm_num : (1000 : ℚ) ≠ 0), rheQ_intCast]

/-! ## Claim C2 -/

/-- C2 (counterexample): the decoded time string of the timestamp
`4*3600*1e9 + 30*1e9` ns is NOT `"04:00:30"` — `timedelta.__str__` does not
zero-pad the hour field, so the code produces `"4:00:30"`. -/
theorem c2_counterexample : time_str_of_ns 14430000000000 ≠ "04:00:30" := by
  decide

/-- C2 (amended): for every in-day 48-bit nanosecond timestamp (one whose
microsecond-rounded value stays below 24 hours), the decoders derive
`hour_bucket = floor(hour(time_of_day)) + 1`, where `hour(time_of_day)` is
the hour of the decoded wall-clock time, `usOf ns / 1000000 / 3600`.  The
timestamp `4*3600*1e9 + 30*1e9` ns decodes to the time string `"4:00:30"`
(hours not zero-padded) with `hour_bucket = 5`, and the hour boundary
`5*3600*1e9` ns yields `"5:00:00"` with `hour_bucket = 6`. -/
theorem c2_hour_bucket :
    (∀ ns : ℕ, usOf ns < 86400000000 →
      end_time_hour_of_ns ns = some (usOf ns / 1000000 / 3600 + 1)) ∧
    time_str_of_ns 14430000000000 = "4:00:30" ∧
    end_time_hour_of_ns 14430000000000 = some 5 ∧
    time_str_of_ns 18000000000000 = "5:00:00" ∧
    end_time_hour_of_ns 18000000000000 = some 6 :=
  ⟨fun ns h => end_time_hour_inday ns h, by decide, by decide, by decide, by decide⟩

/-- C2 (witness): the hour-bucket formula instantiated at the in-day
timestamp `4*3600*1e9 + 30*1e9` ns. -/
theorem c2_witness :
    usOf 14430000000000 < 86400000000 ∧
      end_time_hour_of_ns 14430000000000 =
        some (usOf 14430000000000 / 1000000 / 3600 + 1) :=
  ⟨by decide, c2_hour_bucket.1 14430000000000 (by decide)⟩

/-! ## Claim C9 -/

/-- C9: prepending two zero bytes to a 6-byte field and decoding the 8 bytes
big-endian equals the direct big-endian decode of the 6 bytes; hence the
pack-then-unpack timestamp `ts_padded` used by both decoders equals the
direct 48-bit decode `ts_direct` of the wire message's 6 timestamp bytes. -/
theorem c9_pad_equiv :
    (∀ bs : List ℕ, bs.length = 6 → beDecode (0 :: 0 :: bs) = beDecode bs) ∧
    (∀ msg : List ℕ, ts_padded msg = ts_direct msg) := by
  constructor
  · intro bs _
    simp [beDecode]
  · intro msg
    simp [ts_padded, ts_direct, beDecode]

/-- C9 (witness): the padding equivalence at a concrete 6-byte field. -/
theorem c9_witness :
    ([1, 2, 3, 4, 5, 6] : List ℕ).length = 6 ∧
      beDecode (0 :: 0 :: [1, 2, 3, 4, 5, 6]) = beDecode [1, 2, 3, 4, 5, 6] :=
  ⟨rfl, c9_pad_equiv.1 [1, 2, 3, 4, 5, 6] rfl⟩

/-! ## Claim C10 -/

/-- C10: for every valid 4-byte price integer `p`, the decoded price
`round(p/10000, 3)` is a fixed point of rounding to 3 decimal places. -/
theorem c10_round_idempotent (p : ℕ) (_hp : p < 2 ^ 32) :
    round3 (round3 ((p : ℚ) / 10000)) = round3 ((p : ℚ) / 10000) :=
  round3_round3 _

/-- C10 (witness): idempotence at the raw price 1000000 (i.e. $100.000). -/
theorem c10_witness :
    (1000000 : ℕ) < 2 ^ 32 ∧
      round3 (round3 (((1000000 : ℕ) : ℚ) / 10000)) =
        round3 (((1000000 : ℕ) : ℚ) / 10000) :=
  ⟨by norm_num, c10_round_idempotent 1000000 (by norm_num)⟩

/-! ## Helper lemmas: the message loop -/

/-- The result of the message loop does not depend on the fuel, as long as
the fuel covers the stream length. -/
theorem loopFuel_congr :
    ∀ (f : ℕ) (s : List ℕ), s.length ≤ f → loopFuel f s = loopFuel s.length s := by
  intro f
  induction f using Nat.strong_induction_on with
  | _ f ih =>
    intro s hs
    cases s with
    | nil => cases f <;> rfl
    | cons tag rest =>
      cases f with
      | zero => simp at hs
      | succ g =>
        have hr : rest.length ≤ g := by simpa using hs
        show loopFuel (g + 1) (tag :: rest) = loopFuel (rest.length + 1) (tag :: rest)
        simp only [loopFuel]
        by_cases hv : tag ∈ validTags
        · simp only [if_pos hv]
          by_cases hp : tag = 80
          · simp only [if_pos hp]
            have h1 := ih g (by omega) ((rest.drop 43).drop 2)
              (by simp only [List.length_drop]; omega)
            have h2 := ih rest.length (by omega) ((rest.drop 43).drop 2)
              (by simp only [List.length_drop]; omega)
            rw [h1, h2]
          · simp only [if_neg hp]
            by_cases hq : tag = 81
            · simp only [if_pos hq]
              have h1 := ih g (by omega) ((rest.drop 39).drop 2)
                (by simp only [List.length_drop]; omega)
              have h2 := ih rest.length (by omega) ((rest.drop 39).drop 2)
                (by simp only [List.length_drop]; omega)
              rw [h1, h2]
            · simp only [if_neg hq]
              have h1 := ih g (by omega) (rest.drop (skipLen tag))
                (by simp only [List.length_drop]; omega)
              have h2 := ih rest.length (by omega) (rest.drop (skipLen tag))
                (by simp only [List.length_drop]; omega)
              rw [h1, h2]
        · simp only [if_neg hv]

/-- Unfolding of the loop at a non-empty stream, phrased with `runTail`. -/
theorem runTail_cons (tag : ℕ) (rest : List ℕ) :
    runTail (tag :: rest) =
      (if tag ∈ validTags then
        if tag = 80 then
          match trade_message (rest.take 43) with
          | .error e => .error e
          | .ok r =>
            match runTail ((rest.drop 43).drop 2) with
            | .error e => .error e
            | .ok (t, c) => .ok (r :: t, c)
        else if tag = 81 then
          match cross_trade_message (rest.take 39) with
          | .error e => .error e
          | .ok r =>
            match runTail ((rest.drop 39).drop 2) with
            | .error e => .error e
            | .ok (t, c) => .ok (t, r :: c)
        else runTail (rest.drop (skipLen tag))
      else .error .invalidMessageType) := by
  show loopFuel (rest.length + 1) (tag :: rest) = _
  simp only [loopFuel]
  rw [loopFuel_congr rest.length ((rest.drop 43).drop 2)
      (by simp only [List.length_drop]; omega),
    loopFuel_congr rest.length ((rest.drop 39).drop 2)
      (by simp only [List.length_drop]; omega),
    loopFuel_congr rest.length (rest.drop (skipLen tag))
      (by simp only [List.length_drop]; omega)]
  rfl

/-- EOF exactly at a tag read is a normal termination. -/
theorem runTail_nil : runTail [] = .ok ([], []) := rfl

/-- A short `P` payload makes the unpack inside `trade_message` fail. -/
theorem trade_message_short (msg : List ℕ) (h : msg.length < 43) :
    trade_message msg = .error .truncatedMessage := by
  unfold trade_message
  rw [if_pos (by omega)]

/-- A short `Q` payload makes the unpack inside `cross_trade_message` fail. -/
theorem cross_trade_message_short (msg : List ℕ) (h : msg.length < 39) :
    cross_trade_message msg = .error .truncatedMessage := by
  unfold cross_trade_message
  rw [if_pos (by omega)]

/-- An error at the target of one loop iteration is the error of the whole
loop from the source. -/
theorem runTail_step_error {s s' : List ℕ} (hst : Step s s') {e : ParseError}
    (he : runTail s' = .error e) : runTail s = .error e := by
  cases hst with
  | skip tag rest hv hp hq =>
    rw [runTail_cons, if_pos hv, if_neg hp, if_neg hq, he]
  | ptrade rest r h =>
    rw [runTail_cons, if_pos (by decide : (80 : ℕ) ∈ validTags), if_pos rfl, h]
    simp only [he]
  | qtrade rest r h =>
    rw [runTail_cons, if_pos (by decide : (81 : ℕ) ∈ validTags),
      if_neg (by decide : ¬ (81 : ℕ) = 80), if_pos rfl, h]
    simp only [he]

/-- Error propagation along any reachable boundary. -/
theorem runTail_reaches_error {s s' : List ℕ} (h : Reaches s s') {e : ParseError}
    (he : runTail s' = .error e) : runTail s = .error e := by
  induction h using Relation.ReflTransGen.head_induction_on with
  | refl => exact he
  | head hst _ ih => exact runTail_step_error hst ih

/-- Success at the target of one loop iteration gives success of the whole
loop from the source. -/
theorem runTail_step_ok {s s' : List ℕ} (hst : Step s s')
    (hok : ∃ v, runTail s' = .ok v) : ∃ v, runTail s = .ok v := by
  obtain ⟨⟨t, c⟩, hv⟩ := hok
  cases hst with
  | skip tag rest hvt hp hq =>
    exact ⟨(t, c), by rw [runTail_cons, if_pos hvt, if_neg hp, if_neg hq, hv]⟩
  | ptrade rest r h =>
    refine ⟨(r :: t, c), ?_⟩
    rw [runTail_cons, if_pos (by decide : (80 : ℕ) ∈ validTags), if_pos rfl, h]
    simp only [hv]
  | qtrade rest r h =>
    refine ⟨(t, r :: c), ?_⟩
    rw [runTail_cons, if_pos (by decide : (81 : ℕ) ∈ validTags),
      if_neg (by decide : ¬ (81 : ℕ) = 80), if_pos rfl, h]
    simp only [hv]

/-- Success propagation along any reachable boundary. -/
theorem runTail_reaches_ok {s s' : List ℕ} (h : Reaches s s')
    (hok : ∃ v, runTail s' = .ok v) : ∃ v, runTail s = .ok v := by
  induction h using Relation.ReflTransGen.head_induction_on with
  | refl => exact hok
  | head hst _ ih => exact runTail_step_ok hst ih

/-- `dispatch` is the loop on the stream after the 2-byte preamble. -/
theorem dispatch_eq_runTail (stream : List ℕ) :
    dispatch stream = runTail (stream.drop 2) := rfl

/-! ## Claim C4 -/

/-- C4: a tag byte outside the 21-value known set at any reachable message
boundary makes the whole parse fail with `invalidMessageType` (the failed
`assert`): no trades are returned and the stored `trade_df` /
`cross_trade_df` are unchanged, since the assignments at the end of
`get_trade_data` are never reached. -/
theorem c4_invalid_tag_aborts (st : ParserState) (stream : List ℕ) (tag : ℕ)
    (rest : List ℕ) (hreach : Reaches (stream.drop 2) (tag :: rest))
    (hbad : tag ∉ validTags) :
    get_trade_data st stream = (st, .error .invalidMessageType) := by
  have hb : runTail (tag :: rest) = .error .invalidMessageType := by
    rw [runTail_cons, if_neg hbad]
  have hd : dispatch stream = .error .invalidMessageType := by
    rw [dispatch_eq_runTail]
    exact runTail_reaches_error hreach hb
  simp only [get_trade_data, hd]

/-- C4 (witness): a stream whose second message slot holds the unknown tag
`0x00` (after a complete `S` message) aborts with `invalidMessageType`. -/
theorem c4_witness :
    get_trade_data ⟨none, none⟩
        [0, 0, 83, 1, 2, 3, 4, 5, 6, 7, 8, 9, 10, 11, 12, 13, 0, 9] =
      (⟨none, none⟩, .error .invalidMessageType) :=
  c4_invalid_tag_aborts ⟨none, none⟩ _ 0 [9]
    (Relation.ReflTransGen.single
      (Step.skip 83 [1, 2, 3, 4, 5, 6, 7, 8, 9, 10, 11, 12, 13, 0, 9] (by decide)
        (by decide) (by decide)))
    (by decide)

/-! ## Claim C3 -/

/-- C3 (counterexample): a stream whose `S` message is truncated (only 3 of
13 skip bytes present) does NOT fail — `read` returns the short count
silently, the next tag read sees end-of-stream, and the parse terminates
normally with zero trades, contradicting the claim that any short read is a
`TruncatedMessage` error. -/
theorem c3_counterexample :
    get_trade_data ⟨none, none⟩ [0, 0, 83, 1, 2, 3] =
      (⟨some [], some []⟩, .ok ([], [])) := by
  decide

/-- C3 (amended): only a short read of a `P` payload (43 bytes) or a `Q`
payload (39 bytes) is a fatal `truncatedMessage` error (the `struct.error`
of the unpack), and then no partial record is produced and the stored state
is unchanged; a short non-trade skip read or a short 2-byte padding read is
silently absorbed, after which end-of-stream at the next tag read — the sole
normal termination — ends the parse normally. -/
theorem c3_truncation (st : ParserState) (stream rest : List ℕ) :
    (Reaches (stream.drop 2) (80 :: rest) → rest.length < 43 →
      get_trade_data st stream = (st, .error .truncatedMessage)) ∧
    (Reaches (stream.drop 2) (81 :: rest) → rest.length < 39 →
      get_trade_data st stream = (st, .error .truncatedMessage)) ∧
    (Reaches (stream.drop 2) [] →
      ∃ t c, get_trade_data st stream = (⟨some t, some c⟩, .ok (t, c))) := by
  refine ⟨?_, ?_, ?_⟩
  · intro hr hlen
    have hb : runTail (80 :: rest) = .error .truncatedMessage := by
      rw [runTail_cons, if_pos (by decide : (80 : ℕ) ∈ validTags), if_pos rfl,
        trade_message_short (rest.take 43) (by rw [List.length_take]; omega)]
    have hd : dispatch stream = .error .truncatedMessage := by
      rw [dispatch_eq_runTail]
      exact runTail_reaches_error hr hb
    simp only [get_trade_data, hd]
  · intro hr hlen
    have hb : runTail (81 :: rest) = .error .truncatedMessage := by
      rw [runTail_cons, if_pos (by decide : (81 : ℕ) ∈ validTags),
        if_neg (by decide : ¬ (81 : ℕ) = 80), if_pos rfl,
        cross_trade_message_short (rest.take 39) (by rw [List.length_take]; omega)]
    have hd : dispatch stream = .error .truncatedMessage := by
      rw [dispatch_eq_runTail]
      exact runTail_reaches_error hr hb
    simp only [get_trade_data, hd]
  · intro hr
    obtain ⟨⟨t, c⟩, hv⟩ := runTail_reaches_ok hr ⟨([], []), runTail_nil⟩
    have hd : dispatch stream = .ok (t, c) := by
      rw [dispatch_eq_runTail]; exact hv
    exact ⟨t, c, by simp only [get_trade_data, hd]⟩

/-- C3 (witness): a `P` tag directly followed by end-of-stream (0 payload
bytes available) fails with `truncatedMessage` and leaves the state
unchanged. -/
theorem c3_witness :
    get_trade_data ⟨none, none⟩ [0, 0, 80] =
      (⟨none, none⟩, .error .truncatedMessage) :=
  (c3_truncation ⟨none, none⟩ [0, 0, 80] []).1 Relation.ReflTransGen.refl (by decide)

/-! ## Claim C7 -/

/-- C7: on every exit of the decode phase — the normal end-of-stream return
as well as every error exit — the stream handle opened by `gzip.open` is
still open: the method contains no `close()` call and no `with` block, so no
exit path releases the handle (contradicting the required resource
behaviour). -/
theorem c7_handle_never_closed (st : ParserState) (stream : List ℕ) :
    (get_trade_data_io st stream).1.closed = false := by
  unfold get_trade_data_io
  rcases dispatch stream with e | ⟨t, c⟩ <;> rfl

/-! ## Helper lemmas: the aggregator -/

theorem length_cumPass (seen rows : List VWAPRow) :
    (cumPass seen rows).length = rows.length := by
  induction rows generalizing seen with
  | nil => rfl
  | cons r rest ih => simp [cumPass, ih]

theorem take_cumPass (n : ℕ) (seen rows : List VWAPRow) :
    (cumPass seen rows).take n = cumPass seen (rows.take n) := by
  induction rows generalizing seen n with
  | nil => simp [cumPass]
  | cons r rest ih =>
    cases n with
    | zero => simp [cumPass]
    | succ m => simp [cumPass, List.take_succ_cons, ih]

@[simp] theorem setCums_end_time_hour (r : VWAPRow) (pre : List VWAPRow) :
    (setCums r pre).end_time_hour = r.end_time_hour := rfl

@[simp] theorem setCums_stock (r : VWAPRow) (pre : List VWAPRow) :
    (setCums r pre).stock = r.stock := rfl

@[simp] theorem setCums_shares (r : VWAPRow) (pre : List VWAPRow) :
    (setCums r pre).shares = r.shares := rfl

@[simp] theorem setCums_total_value (r : VWAPRow) (pre : List VWAPRow) :
    (setCums r pre).total_value = r.total_value := rfl

@[simp] theorem setCums_vwap (r : VWAPRow) (pre : List VWAPRow) :
    (setCums r pre).vwap = r.vwap := rfl

theorem mem_cumPass {seen rows : List VWAPRow} {r : VWAPRow}
    (h : r ∈ cumPass seen rows) : ∃ r₀ pre, r₀ ∈ rows ∧ r = setCums r₀ pre := by
  induction rows generalizing seen with
  | nil => simp [cumPass] at h
  | cons x rest ih =>
    simp only [cumPass, List.mem_cons] at h
    rcases h with h | h
    · exact ⟨x, seen ++ [x], List.mem_cons_self _ _, h⟩
    · obtain ⟨r₀, pre, hm, he⟩ := ih h
      exact ⟨r₀, pre, List.mem_cons_of_mem _ hm, he⟩

theorem cumPass_filter_map {α : Type} (f : VWAPRow → α) (p : VWAPRow → Bool)
    (hf : ∀ r pre, f (setCums r pre) = f r) (hp : ∀ r pre, p (setCums r pre) = p r)
    (rows seen : List VWAPRow) :
    ((cumPass seen rows).filter p).map f = (rows.filter p).map f := by
  induction rows generalizing seen with
  | nil => rfl
  | cons r rest ih =>
    simp only [cumPass, List.filter_cons, hp r (seen ++ [r])]
    by_cases hc : p r = true
    · simp [hc, hf, ih]
    · simp [hc, ih]

theorem cumPass_filter_shares (s : String) (rows seen : List VWAPRow) :
    ((cumPass seen rows).filter fun x => decide (x.stock = s)).map VWAPRow.shares =
      (rows.filter fun x => decide (x.stock = s)).map VWAPRow.shares :=
  cumPass_filter_map VWAPRow.shares (fun x => decide (x.stock = s))
    (fun _ _ => rfl) (fun _ _ => rfl) rows seen

theorem cumPass_filter_total_value (s : String) (rows seen : List VWAPRow) :
    ((cumPass seen rows).filter fun x => decide (x.stock = s)).map
        VWAPRow.total_value =
      (rows.filter fun x => decide (x.stock = s)).map VWAPRow.total_value :=
  cumPass_filter_map VWAPRow.total_value (fun x => decide (x.stock = s))
    (fun _ _ => rfl) (fun _ _ => rfl) rows seen

theorem getD_cumPass (rows : List VWAPRow) :
    ∀ (seen : List VWAPRow) (i : ℕ), i < rows.length →
      (cumPass seen rows).getD i default =
        setCums (rows.getD i default) (seen ++ rows.take (i + 1)) := by
  induction rows with
  | nil => intro seen i hi; simp at hi
  | cons r rest ih =>
    intro seen i hi
    cases i with
    | zero => simp [cumPass]
    | succ m =>
      have hm : m < rest.length := by simpa using hi
      simp only [cumPass, List.getD_cons_succ, List.take_succ_cons]
      rw [ih (seen ++ [r]) m hm]
      simp [List.append_assoc]

theorem cumPass_map_key (seen rows : List VWAPRow) :
    (cumPass seen rows).map vwapKey = rows.map vwapKey := by
  induction rows generalizing seen with
  | nil => rfl
  | cons r rest ih => simp [cumPass, ih, vwapKey]

theorem bucketPass_map_key (l : List TradeRow) :
    (bucketPass l).map vwapKey = sortedKeys l := by
  rw [bucketPass, List.map_map,
    show vwapKey ∘ bucketRow l = id from funext fun k => rfl, List.map_id]

theorem sortedKeys_sorted (l : List TradeRow) : List.Pairwise keyLE (sortedKeys l) :=
  List.sorted_insertionSort keyLE _

theorem sortedKeys_nodup (l : List TradeRow) : (sortedKeys l).Nodup :=
  (List.perm_insertionSort keyLE _).nodup_iff.mpr (List.nodup_dedup _)

theorem keyLT_of_keyLE_ne {a b : Key} (h : keyLE a b) (hne : a ≠ b) : keyLT a b := by
  rcases h with h | ⟨h1, h2⟩
  · exact Or.inl h
  · exact Or.inr ⟨h1, lt_of_le_of_ne h2 fun hs => hne (Prod.ext h1 hs)⟩

theorem sortedKeys_pairwise_lt (l : List TradeRow) :
    List.Pairwise keyLT (sortedKeys l) :=
  ((sortedKeys_sorted l).and (sortedKeys_nodup l)).imp fun h =>
    keyLT_of_keyLE_ne h.1 h.2

theorem mem_sortedKeys (l : List TradeRow) (k : Key) :
    k ∈ sortedKeys l ↔ k ∈ l.map rowKey := by
  rw [sortedKeys, List.Perm.mem_iff (List.perm_insertionSort keyLE _), List.mem_dedup]

theorem calcVWAP_map_key (l : List TradeRow) :
    (calculate_VWAP l).map vwapKey = sortedKeys l := by
  rw [calculate_VWAP, cumPass_map_key, bucketPass_map_key]

theorem calcVWAP_mem_spec (l : List TradeRow) :
    ∀ r ∈ calculate_VWAP l,
      r.shares = sumSharesFor l (vwapKey r) ∧
      r.total_value = sumValueFor l (vwapKey r) ∧
      r.vwap = (pandasDiv r.total_value r.shares).map round3 ∧
      r.cum_vwap = (pandasDiv r.cum_total_value r.cum_shares).map round3 := by
  intro r hr
  obtain ⟨r₀, pre, hm, he⟩ := mem_cumPass hr
  obtain ⟨k, _, hbk⟩ := List.mem_map.mp hm
  subst he
  subst hbk
  exact ⟨rfl, rfl, rfl, rfl⟩

theorem calcVWAP_cum_spec (l : List TradeRow) (i : ℕ)
    (hi : i < (calculate_VWAP l).length) :
    ((calculate_VWAP l).getD i default).cum_shares =
      ((((calculate_VWAP l).take (i + 1)).filter fun x =>
          decide (x.stock = ((calculate_VWAP l).getD i default).stock)).map
        VWAPRow.shares).sum ∧
    ((calculate_VWAP l).getD i default).cum_total_value =
      ((((calculate_VWAP l).take (i + 1)).filter fun x =>
          decide (x.stock = ((calculate_VWAP l).getD i default).stock)).map
        VWAPRow.total_value).sum := by
  unfold calculate_VWAP at hi ⊢
  have hiB : i < (bucketPass l).length := by rwa [length_cumPass] at hi
  rw [getD_cumPass _ _ _ hiB, take_cumPass, List.nil_append]
  constructor
  · rw [cumPass_filter_shares]
    rfl
  · rw [cumPass_filter_total_value]
    rfl

theorem sumSharesFor_append (a b : List TradeRow) (k : Key) :
    sumSharesFor (a ++ b) k = sumSharesFor a k + sumSharesFor b k := by
  simp [sumSharesFor, List.filter_append]

theorem sumValueFor_append (a b : List TradeRow) (k : Key) :
    sumValueFor (a ++ b) k = sumValueFor a k + sumValueFor b k := by
  simp [sumValueFor, List.filter_append]

theorem headD_mem {α : Type} [Inhabited α] (l : List α) (h : 0 < l.length) :
    l.headD default ∈ l := by
  cases l with
  | nil => simp at h
  | cons x xs => exact List.mem_cons_self _ _

/-! ## Claim C1 -/

/-- C1: for every input list of decoded trade records, `calculate_VWAP`
returns (a) a table whose key column lists each distinct
`(end_time_hour, stock)` pair of the input exactly once, in strictly
ascending `(hour, stock)` order; (b) per row, `shares` and `total_value` are
the sums over the group of `shares` and of `price * shares`, with
`vwap = round(total_value / shares, 3)`; and (c) per row, the cumulative
columns are the running sums, in row order, over the rows of the same stock
(which by (a) is across increasing `end_time_hour`), with
`cum_vwap = round(cum_total_value / cum_shares, 3)`. -/
theorem c1_vwap_aggregation (l : List TradeRow) :
    List.Pairwise keyLT ((calculate_VWAP l).map vwapKey) ∧
    (∀ k : Key, k ∈ (calculate_VWAP l).map vwapKey ↔ k ∈ l.map rowKey) ∧
    (∀ r ∈ calculate_VWAP l,
      r.shares = sumSharesFor l (vwapKey r) ∧
      r.total_value = sumValueFor l (vwapKey r) ∧
      r.vwap = (pandasDiv r.total_value r.shares).map round3) ∧
    (∀ i : ℕ, i < (calculate_VWAP l).length →
      ((calculate_VWAP l).getD i default).cum_shares =
        ((((calculate_VWAP l).take (i + 1)).filter fun x =>
            decide (x.stock = ((calculate_VWAP l).getD i default).stock)).map
          VWAPRow.shares).sum ∧
      ((calculate_VWAP l).getD i default).cum_total_value =
        ((((calculate_VWAP l).take (i + 1)).filter fun x =>
            decide (x.stock = ((calculate_VWAP l).getD i default).stock)).map
          VWAPRow.total_value).sum ∧
      ((calculate_VWAP l).getD i default).cum_vwap =
        (pandasDiv ((calculate_VWAP l).getD i default).cum_total_value
          ((calculate_VWAP l).getD i default).cum_shares).map round3) := by
  refine ⟨?_, ?_, ?_, ?_⟩
  · rw [calcVWAP_map_key]
    exact sortedKeys_pairwise_lt l
  · intro k
    rw [calcVWAP_map_key]
    exact mem_sortedKeys l k
  · intro r hr
    have h := calcVWAP_mem_spec l r hr
    exact ⟨h.1, h.2.1, h.2.2.1⟩
  · intro i hi
    refine ⟨(calcVWAP_cum_spec l i hi).1, (calcVWAP_cum_spec l i hi).2, ?_⟩
    have hd : (calculate_VWAP l).getD i default = (calculate_VWAP l).get ⟨i, hi⟩ :=
      List.getD_eq_getElem _ _ hi
    rw [hd]
    exact (calcVWAP_mem_spec l _ (List.get_mem _ _ _)).2.2.2

/-- C1 (witness): the group-sum and running-sum properties instantiated on
the concrete two-trade input `exIn`, at its first row and at row index 1. -/
theorem c1_witness :
    (((calculate_VWAP exIn).headD default).shares =
        sumSharesFor exIn (vwapKey ((calculate_VWAP exIn).headD default)) ∧
      ((calculate_VWAP exIn).headD default).total_value =
        sumValueFor exIn (vwapKey ((calculate_VWAP exIn).headD default)) ∧
      ((calculate_VWAP exIn).headD default).vwap =
        (pandasDiv ((calculate_VWAP exIn).headD default).total_value
          ((calculate_VWAP exIn).headD default).shares).map round3) ∧
    (((calculate_VWAP exIn).getD 1 default).cum_shares =
        ((((calculate_VWAP exIn).take 2).filter fun x =>
            decide (x.stock = ((calculate_VWAP exIn).getD 1 default).stock)).map
          VWAPRow.shares).sum ∧
      ((calculate_VWAP exIn).getD 1 default).cum_total_value =
        ((((calculate_VWAP exIn).take 2).filter fun x =>
            decide (x.stock = ((calculate_VWAP exIn).getD 1 default).stock)).map
          VWAPRow.total_value).sum ∧
      ((calculate_VWAP exIn).getD 1 default).cum_vwap =
        (pandasDiv ((calculate_VWAP exIn).getD 1 default).cum_total_value
          ((calculate_VWAP exIn).getD 1 default).cum_shares).map round3) :=
  ⟨(c1_vwap_aggregation exIn).2.2.1 _ (headD_mem _ (by decide)),
    (c1_vwap_aggregation exIn).2.2.2 1 (by decide)⟩

/-! ## Claim C5 -/

/-- C5: with `include_cross_trade = false` (the default) the aggregation
result does not depend on the cross-trade collection at all; with it `true`
the two collections are merged before aggregation and each output row's
group sums take contributions from both, over the union of their keys. -/
theorem c5_cross_trade_option :
    (∀ trades cross cross' : List TradeRow,
      get_VWAP_df trades cross false = get_VWAP_df trades cross' false) ∧
    (∀ trades cross : List TradeRow, ∀ r ∈ get_VWAP_df trades cross true,
      r.shares =
        sumSharesFor trades (vwapKey r) + sumSharesFor cross (vwapKey r) ∧
      r.total_value =
        sumValueFor trades (vwapKey r) + sumValueFor cross (vwapKey r)) ∧
    (∀ trades cross : List TradeRow, ∀ k : Key,
      k ∈ (get_VWAP_df trades cross true).map vwapKey ↔
        k ∈ trades.map rowKey ∨ k ∈ cross.map rowKey) := by
  refine ⟨fun _ _ _ => rfl, ?_, ?_⟩
  · intro trades cross r hr
    have h := calcVWAP_mem_spec (trades ++ cross) r hr
    exact ⟨h.1.trans (sumSharesFor_append trades cross _),
      h.2.1.trans (sumValueFor_append trades cross _)⟩
  · intro trades cross k
    rw [show get_VWAP_df trades cross true = calculate_VWAP (trades ++ cross)
        from rfl,
      calcVWAP_map_key, mem_sortedKeys]
    simp [List.mem_append]

/-- C5 (witness): the merged-sums property instantiated on the concrete
inputs `exIn` and `exCross`, whose first bucket is shared. -/
theorem c5_witness :
    ((get_VWAP_df exIn exCross true).headD default).shares =
        sumSharesFor exIn (vwapKey ((get_VWAP_df exIn exCross true).headD default)) +
          sumSharesFor exCross
            (vwapKey ((get_VWAP_df exIn exCross true).headD default)) ∧
      ((get_VWAP_df exIn exCross true).headD default).total_value =
        sumValueFor exIn (vwapKey ((get_VWAP_df exIn exCross true).headD default)) +
          sumValueFor exCross
            (vwapKey ((get_VWAP_df exIn exCross true).headD default)) :=
  c5_cross_trade_option.2.1 exIn exCross _ (headD_mem _ (by decide))

/-! ## Claim C6 -/

/-- C6 (counterexample): on a single trade with zero shares,
`calculate_VWAP` does NOT fail with a division error — pandas float division
by zero raises nothing — and returns a row whose `vwap` and `cum_vwap` hold
the silently propagated non-finite value (modelled `none`). -/
theorem c6_counterexample :
    calculate_VWAP zeroShareIn = [⟨1, "A", 0, 0, none, 0, 0, none⟩] := by
  have hk : sortedKeys zeroShareIn = [(1, "A")] := by decide
  rw [calculate_VWAP, bucketPass, hk]
  simp [cumPass, setCums, bucketRow, sumSharesFor, sumValueFor, tradeValue,
    zeroShareIn, rowKey, pandasDiv]

/-- C6 (amended): a `(end_time_hour, stock)` group with zero total shares
does not raise any error: the computation returns normally and the group's
`vwap` (and, when the cumulative shares are zero, `cum_vwap`) holds the
silently propagated non-finite value `none` (pandas `NaN`/`inf`). -/
theorem c6_zero_share_group (l : List TradeRow) :
    ∀ r ∈ calculate_VWAP l,
      (r.shares = 0 → r.vwap = none) ∧
      (r.cum_shares = 0 → r.cum_vwap = none) := by
  intro r hr
  have h := calcVWAP_mem_spec l r hr
  constructor
  · intro h0
    rw [h.2.2.1, h0]
    simp [pandasDiv]
  · intro h0
    rw [h.2.2.2, h0]
    simp [pandasDiv]

/-- C6 (witness): the zero-share behaviour at the concrete input
`zeroShareIn`. -/
theorem c6_witness :
    ((calculate_VWAP zeroShareIn).headD default).vwap = none ∧
      ((calculate_VWAP zeroShareIn).headD default).cum_vwap = none :=
  ⟨(c6_zero_share_group zeroShareIn _ (headD_mem _ (by decide))).1 (by decide),
    (c6_zero_share_group zeroShareIn _ (headD_mem _ (by decide))).2 (by decide)⟩

/-! ## Claim C8 -/

/-- C8: `get_VWAP_df` produces an independent result collection: the stored
`trade_df` and `cross_trade_df` are returned unchanged (in particular their
column sets are unchanged), even though `calculate_VWAP` does add a
`total_value` column to its argument — the argument is the fresh copy, never
the cache; and the returned rows equal the pure aggregation of the stored
rows. -/
theorem c8_frame (st : VWAPState) (b : Bool) :
    (get_VWAP_df_st st b).1 = st ∧
    (get_VWAP_df_st st b).1.trade_df.extra_cols = st.trade_df.extra_cols ∧
    (get_VWAP_df_st st b).1.cross_trade_df.extra_cols =
      st.cross_trade_df.extra_cols ∧
    (calculate_VWAP_mut (if b then concatDF st.trade_df.copy st.cross_trade_df.copy
        else st.trade_df.copy)).1.extra_cols =
      (if b then st.trade_df.extra_cols ∪ st.cross_trade_df.extra_cols
        else st.trade_df.extra_cols) ++ ["total_value"] ∧
    (get_VWAP_df_st st b).2 =
      get_VWAP_df st.trade_df.rows st.cross_trade_df.rows b := by
  cases b <;> exact ⟨rfl, rfl, rfl, rfl, rfl⟩

end ITCH
